import Mathlib

/-!
Verification of the SNPio filtering core (`snpio/filtering/filtering_methods.py`
and `snpio/filtering/nremover2.py`).  Genotype symbols are modelled as strings,
alignments as lists of rows of symbols, retention masks as lists of booleans,
and all fractional arithmetic is carried out exactly over `ℚ`.
-/

namespace SNPio

/-- Genotype symbols are single-character strings, as in the numpy string arrays. -/
abbrev Sym := String

/-- Symbol constants for the alphabet used by the filters. -/
def symA : Sym := "A"

def symC : Sym := "C"

def symG : Sym := "G"

def symT : Sym := "T"

def symU : Sym := "U"

def symR : Sym := "R"

def symY : Sym := "Y"

def symS : Sym := "S"

def symW : Sym := "W"

def symK : Sym := "K"

def symM : Sym := "M"

def symB : Sym := "B"

def symD : Sym := "D"

def symH : Sym := "H"

def symV : Sym := "V"

def symX : Sym := "X"

def symN : Sym := "N"

def symGap : Sym := "-"

def symDot : Sym := "."

def symQm : Sym := "?"

/-- The four missing-data markers, in the order used throughout the source
(`["N", "-", ".", "?"]`). -/
def missingMarkers : List Sym := [symN, symGap, symDot, symQm]

/-- Check whether a symbol is one of the four missing-data markers
(`np.isin(x, ["N", "-", ".", "?"])`). -/
def isMissing (s : Sym) : Bool := missingMarkers.contains s

/-- Number of entries of a column equal to a given symbol
(`np.count_nonzero(col == sym)`). -/
def countSym (col : List Sym) (s : Sym) : Nat := (col.filter (fun x => x = s)).length

/-- Number of missing entries of a column at a given list of row indices
(`np.count_nonzero(np.isin(col[indices], ["N", "-", ".", "?"]))`). -/
def countMissingAt (col : List Sym) (indices : List Nat) : Nat :=
  (indices.filter (fun i => isMissing (col.getD i symQm))).length

/-! ## Per-population missingness (claim C1)

Two distinct implementations exist in the source:
`FilteringMethods.filter_missing_pop` (filtering_methods.py) and
`NRemover2.filter_missing_pop` (nremover2.py). -/

/-- Row indices of the active sample list that belong to a population:
`[i for i, sid in enumerate(samples) if sid in sample_ids_filt]` in
`FilteringMethods.filter_missing_pop` (sample_ids_filt is the intersection of the
population sample ids with the active samples, so membership in `sampleIds`
suffices for entries of `samples`). -/
def fmPopIndices (samples : List String) (sampleIds : List String) : List Nat :=
  (List.range samples.length).filter (fun i => sampleIds.contains (samples.getD i (String.mk [])))

/-- One population's contribution to the mask in
`FilteringMethods.filter_missing_pop`: `none` when the population has no active
samples (the loop executes `continue`), otherwise whether the within-population
missing proportion is at most the threshold. -/
def fmPopMask (col : List Sym) (samples : List String) (sampleIds : List String) (t : ℚ) :
    Option Bool :=
  let idx := fmPopIndices samples sampleIds
  if idx.isEmpty then none
  else some (decide ((countMissingAt col idx : ℚ) / (idx.length : ℚ) ≤ t))

/-- The per-locus keep decision of `FilteringMethods.filter_missing_pop`:
collect `pop_mask` entries for populations with at least one active sample and
combine them with `np.all(np.vstack(pop_masks), axis=0)`; when no population
contributed a mask the cumulative mask is all-`False`. -/
def fmFilterMissingPopKeep (col : List Sym) (samples : List String)
    (pops : List (List String)) (t : ℚ) : Bool :=
  let masks := pops.filterMap (fun ids => fmPopMask col samples ids t)
  if masks.isEmpty then false else masks.all (fun b => b)

/-- Positions within a population's own sample-id list whose sample id is
still present in the sample list: `[i for i, sid in enumerate(sample_ids) if sid
in self.samples]` in `NRemover2.filter_missing_pop`. -/
def nrPopIndices (samples : List String) (sampleIds : List String) : List Nat :=
  (List.range sampleIds.length).filter (fun i => samples.contains (sampleIds.getD i (String.mk [])))

/-- The helper `missing_data_proportion` of `NRemover2.filter_missing_pop`:
the fraction of missing entries at the given indices when more than one index
remains, and `1.0` otherwise. -/
def nrMissingDataProportion (col : List Sym) (indices : List Nat) : ℚ :=
  if 1 < indices.length then (countMissingAt col indices : ℚ) / (indices.length : ℚ) else 1

/-- The per-locus keep decision of `NRemover2.filter_missing_pop`: the flag list
of `not_exceeds_threshold` is combined with `np.any(..., axis=1)`, so the locus
is kept when at least one population's proportion is within the threshold. -/
def nrFilterMissingPopKeep (col : List Sym) (samples : List String)
    (pops : List (List String)) (t : ℚ) : Bool :=
  pops.any (fun ids => decide (nrMissingDataProportion col (nrPopIndices samples ids) ≤ t))

/-- The per-population rule exactly as claim C1 states it: the locus is kept iff
every population's within-population missing fraction is at most the threshold,
where a population with fewer than 2 remaining samples counts as fraction 1. -/
def claimPopKeep (col : List Sym) (samples : List String)
    (pops : List (List String)) (t : ℚ) : Bool :=
  pops.all (fun ids =>
    let idx := fmPopIndices samples ids
    decide ((if idx.length < 2 then (1 : ℚ) else (countMissingAt col idx : ℚ) / (idx.length : ℚ)) ≤ t))

/-- C1 counterexample input: one population consisting of the single active
sample, a column with no missing data, threshold 1/2. -/
def c1Samples : List String := ["s1"]

/-- C1 counterexample populations. -/
def c1Pops : List (List String) := [["s1"]]

/-- C1 counterexample column. -/
def c1Col : List Sym := [symA]

/-! ## MAF/MAC allele counting (claim C2)

`FilteringMethods._compute_maf_proportions` and
`FilteringMethods._calculate_minor_allele_counts` share a local `count_bases`
that first counts exact matches of A, C, G, T and then walks
`Bio.SeqUtils.IUPACData.ambiguous_dna_values`, adding `count(code)/len(mapping)`
to every base of the mapping.  `NRemover2.filter_minor_allele_frequency` has a
different `count_bases` that adds a full 1 per constituent base instead. -/

/-- Exact rational per-base counts for one column. -/
structure BaseCounts where
  a : ℚ
  c : ℚ
  g : ℚ
  t : ℚ
deriving DecidableEq

/-- Add an amount to the entry of one of the four canonical bases
(`base_count[mapped_base] += split_count`). -/
def addToBase (bc : BaseCounts) (b : Sym) (q : ℚ) : BaseCounts :=
  if b = symA then { bc with a := bc.a + q }
  else if b = symC then { bc with c := bc.c + q }
  else if b = symG then { bc with g := bc.g + q }
  else if b = symT then { bc with t := bc.t + q }
  else bc

/-- `Bio.SeqUtils.IUPACData.ambiguous_dna_values`, in Biopython's order.  Note
that it maps every canonical base to itself and maps both X and N to `"GATC"`. -/
def ambiguousDnaValues : List (Sym × List Sym) :=
  [(symA, [symA]), (symC, [symC]), (symG, [symG]), (symT, [symT]),
   (symM, [symA, symC]), (symR, [symA, symG]), (symW, [symA, symT]),
   (symS, [symC, symG]), (symY, [symC, symT]), (symK, [symG, symT]),
   (symV, [symA, symC, symG]), (symH, [symA, symC, symT]),
   (symD, [symA, symG, symT]), (symB, [symC, symG, symT]),
   (symX, [symG, symA, symT, symC]), (symN, [symG, symA, symT, symC])]

/-- The `count_bases` helper of `FilteringMethods._compute_maf_proportions`:
exact counts of A/C/G/T, then for every entry of `ambiguous_dna_values` add
`count(code)/len(mapping)` to each mapped base. -/
def fmCountBases (col : List Sym) : BaseCounts :=
  let exact : BaseCounts :=
    { a := (countSym col symA : ℚ), c := (countSym col symC : ℚ),
      g := (countSym col symG : ℚ), t := (countSym col symT : ℚ) }
  ambiguousDnaValues.foldl
    (fun bc kv =>
      let split : ℚ := (countSym col kv.1 : ℚ) / (kv.2.length : ℚ)
      kv.2.foldl (fun bc2 b => addToBase bc2 b split) bc)
    exact

/-- Insert a rational into a descending-sorted list (used to model Python's
`sorted(counts.values(), reverse=True)`). -/
def insertDesc (q : ℚ) : List ℚ → List ℚ
  | [] => [q]
  | x :: xs => if x ≤ q then q :: x :: xs else x :: insertDesc q xs

/-- Sort a list of rationals in descending order. -/
def sortDesc (l : List ℚ) : List ℚ := l.foldr insertDesc []

/-- The `minor_allele_frequency` helper of
`FilteringMethods._compute_maf_proportions`: 0 when all four counts are zero or
their total is zero, otherwise the second entry of the descending-sorted counts
divided by their total. -/
def fmMinorAlleleFrequency (col : List Sym) : ℚ :=
  let bc := fmCountBases col
  let vals := [bc.a, bc.c, bc.g, bc.t]
  if vals.all (fun v => v = 0) then 0
  else
    let sc := sortDesc vals
    let total := sc.sum
    if total = 0 then 0 else sc.getD 1 0 / total

/-- The `count_bases` helper of `NRemover2.filter_minor_allele_frequency`: one
per exact match of A/C/G/T; a symbol that is not a missing marker adds a full 1
per constituent base of its `ambiguous_dna_values` entry (a `KeyError` is
swallowed). -/
def nrCountBasesStep (bc : BaseCounts) (b : Sym) : BaseCounts :=
  if b = symA ∨ b = symC ∨ b = symG ∨ b = symT then addToBase bc b 1
  else if isMissing b then bc
  else
    match (ambiguousDnaValues.filter (fun kv => kv.1 = b)).head? with
    | some kv => kv.2.foldl (fun bc2 mb => addToBase bc2 mb 1) bc
    | none => bc

/-- Fold `nrCountBasesStep` over a column. -/
def nrCountBases (col : List Sym) : BaseCounts :=
  col.foldl nrCountBasesStep { a := 0, c := 0, g := 0, t := 0 }

/-- The `minor_allele_frequency` helper of
`NRemover2.filter_minor_allele_frequency`: 0 when all counts are zero,
otherwise the second-largest count divided by the total. -/
def nrMinorAlleleFrequency (col : List Sym) : ℚ :=
  let bc := nrCountBases col
  let vals := [bc.a, bc.c, bc.g, bc.t]
  if vals.all (fun v => v = 0) then 0
  else
    let sc := sortDesc vals
    sc.getD 1 0 / sc.sum

/-- The example column of claim C2: seven A, two T and one W over 10 samples. -/
def c2Column : List Sym :=
  [symA, symA, symA, symA, symA, symA, symA, symT, symT, symW]

/-! ## Singleton, monomorphic and biallelic filters (claims C4, C5, C6) -/

/-- The `invalid_bases` array of `FilteringMethods.filter_singletons` and
`FilteringMethods.filter_monomorphic`: the four missing markers, extended by the
six two-base ambiguity codes when heterozygous genotypes are excluded. -/
def invalidBases (excludeHet : Bool) : List Sym :=
  if excludeHet then [symGap, symDot, symQm, symN, symR, symY, symS, symW, symK, symM]
  else [symGap, symDot, symQm, symN]

/-- The valid entries of a column: `col[~np.isin(col, invalid_bases)]`. -/
def validSyms (col : List Sym) (excludeHet : Bool) : List Sym :=
  col.filter (fun s => !(invalidBases excludeHet).contains s)

/-- The distinct valid symbols of a column (`set(valid_col)`). -/
def distinctValid (col : List Sym) (excludeHet : Bool) : List Sym :=
  (validSyms col excludeHet).dedup

/-- The `count_valid_alleles` dictionary of `FilteringMethods.filter_singletons`:
each distinct valid symbol paired with its number of occurrences in the valid
entries. -/
def fmAlleleCounts (col : List Sym) (excludeHet : Bool) : List (Sym × Nat) :=
  (distinctValid col excludeHet).map
    (fun al => (al, countSym (validSyms col excludeHet) al))

/-- The `is_singleton_column` test of `FilteringMethods.filter_singletons`:
with at least two distinct valid alleles, true exactly when the minimum allele
count is 1; otherwise false.  A true value marks the locus for removal
(`final_mask = np.logical_and(~mask, loci_indices)`). -/
def fmIsSingleton (col : List Sym) (excludeHet : Bool) : Bool :=
  let ac := fmAlleleCounts col excludeHet
  if 2 ≤ ac.length then decide ((ac.map Prod.snd).min?.getD 0 = 1) else false

/-- The distinct non-missing symbols of a column as used by
`NRemover2.filter_singletons` (`{allele for allele in column_list if allele not
in ["N", "-", ".", "?"]}`). -/
def nrAlleles (col : List Sym) : List Sym :=
  (col.filter (fun s => !missingMarkers.contains s)).dedup

/-- The `is_singleton` test of `NRemover2.filter_singletons`.  Its result is
used directly as the keep mask: a locus is kept iff there are exactly two
distinct non-missing alleles and the count of the least frequent one
(`column_list.count(min_allele)`) differs from 1. -/
def nrIsSingletonKeep (col : List Sym) : Bool :=
  let alleles := nrAlleles col
  if alleles.length = 2 then
    decide (¬ ((alleles.map (fun al => countSym col al)).min?.getD 0 = 1))
  else false

/-- The singleton rule exactly as claim C4 states it: drop iff there are
exactly two distinct valid alleles and the less frequent one occurs exactly
once. -/
def claimSingletonDrop (col : List Sym) (excludeHet : Bool) : Bool :=
  decide ((distinctValid col excludeHet).length = 2) &&
    decide (∃ al ∈ distinctValid col excludeHet, countSym (validSyms col excludeHet) al = 1)

/-- C4 counterexample column: allele counts A = 2, C = 2, T = 1 (three distinct
valid alleles, least frequent occurring once). -/
def c4Col : List Sym := [symA, symA, symC, symC, symT]

/-- C4 example columns from the claim. -/
def c4ColNine : List Sym :=
  [symA, symA, symA, symA, symA, symA, symA, symA, symA, symT]

/-- C4 balanced example column. -/
def c4ColFive : List Sym :=
  [symA, symA, symA, symA, symA, symT, symT, symT, symT, symT]

/-- The `count_valid_alleles` helper of `FilteringMethods.filter_monomorphic`:
`np.count_nonzero([~np.isin(col, invalid_bases)])` counts the valid *entries*
of the column (with multiplicity), not its distinct alleles. -/
def fmMonoValidEntryCount (col : List Sym) (excludeHet : Bool) : Nat :=
  (col.filter (fun s => !(invalidBases excludeHet).contains s)).length

/-- The keep decision of `FilteringMethods.filter_monomorphic`: the
`polymorphic_mask` is `valid_allele_counts > 1`. -/
def fmMonoKeep (col : List Sym) (excludeHet : Bool) : Bool :=
  decide (1 < fmMonoValidEntryCount col excludeHet)

/-- The `is_monomorphic` test of `NRemover2.filter_monomorphic`, used directly
as the keep mask: the distinct symbols of the column minus `"N"`, `"-"`, `"."`
and `"?"`, kept when at least one remains. -/
def nrMonoKeep (col : List Sym) : Bool :=
  let alleles := (col.dedup.filter (fun al => al ≠ symN)).filter
    (fun al => !([symGap, symDot, symQm].contains al))
  decide (1 ≤ alleles.length)

/-- The six two-base IUPAC ambiguity codes and their constituent bases, as in
the `heterozygous_bases` dictionary of `FilteringMethods.filter_biallelic`. -/
def hetExpand (s : Sym) : List Sym :=
  if s = symR then [symA, symG]
  else if s = symY then [symC, symT]
  else if s = symS then [symG, symC]
  else if s = symW then [symA, symT]
  else if s = symK then [symG, symT]
  else if s = symM then [symA, symC]
  else [s]

/-- The `count_valid_bases` helper of `FilteringMethods.filter_biallelic`:
remove the four missing markers; when heterozygous genotypes are *not*
excluded, expand each ambiguity code into its two bases; then count distinct
symbols.  With `exclude_heterozygous=True` the ambiguity codes are left in
place and counted as symbols of their own. -/
def fmCountValidBasesBiallelic (col : List Sym) (excludeHet : Bool) : Nat :=
  let col1 := col.filter (fun s => !([symGap, symDot, symQm, symN].contains s))
  let col2 := if excludeHet then col1 else col1.flatMap hetExpand
  col2.dedup.length

/-- The keep decision of `FilteringMethods.filter_biallelic`
(`mask = np.where(unique_base_counts == 2, True, False)`). -/
def fmBiallelicKeep (col : List Sym) (excludeHet : Bool) : Bool :=
  decide (fmCountValidBasesBiallelic col excludeHet = 2)

/-! ## Step report of `NRemover2.nremover` (claim C8)

The `steps` list of `NRemover2.nremover` has ten entries (there is no
minor-allele-count stage).  During the loop, an enabled stage that is not the
sample filter appends `(name, loci_removed)` to `loci_removed_per_step`, the
enabled sample filter appends nothing, and a disabled stage appends
`(name, 0)`.  The `loci_removed` value is determined by the filter functions;
it is abstracted here as an oracle from stage names to counts, which the
structural claim C8 does not depend on. -/

/-- Run configuration of `NRemover2.nremover` (the parameters that decide which
stages fire). -/
structure NremoverConfig where
  maxMissingGlobal : ℚ
  maxMissingPop : ℚ
  maxMissingSample : ℚ
  minMaf : ℚ
  biallelic : Bool
  monomorphic : Bool
  singletons : Bool
  unlinkedOnly : Bool
  thin : Option Int
  randomSubset : Option ℚ

/-- Name of the sample-filter stage, which appends no report entry when it is
enabled. -/
def sampleStepName : String := "Filter missing data (sample)"

/-- The `steps` list of `NRemover2.nremover`: stage names paired with their
enabling conditions, in the order they appear in the source. -/
def nremoverSteps (c : NremoverConfig) : List (String × Bool) :=
  [("Filter linked loci", c.unlinkedOnly),
   ("Thin Loci", c.thin.isSome),
   ("Randomly Subset Loci", c.randomSubset.isSome),
   ("Filter missing data (sample)", decide (c.maxMissingSample < 1)),
   ("Filter monomorphic sites", c.monomorphic),
   ("Filter singletons", c.singletons),
   ("Filter non-biallelic sites", c.biallelic),
   ("Filter missing data (global)", decide (c.maxMissingGlobal < 1)),
   ("Filter missing data (population)", decide (c.maxMissingPop < 1)),
   ("Filter minor allele frequency", decide (0 < c.minMaf))]

/-- Contribution of one stage to `loci_removed_per_step`: nothing for the
enabled sample filter, `(name, removed)` for other enabled stages, `(name, 0)`
for disabled stages. -/
def stepEntry (removedOf : String → Nat) (nc : String × Bool) : List (String × Nat) :=
  if nc.2 then (if nc.1 ≠ sampleStepName then [(nc.1, removedOf nc.1)] else [])
  else [(nc.1, 0)]

/-- The `loci_removed_per_step` list accumulated by the loop of
`NRemover2.nremover`. -/
def lociRemovedPerStep (c : NremoverConfig) (removedOf : String → Nat) :
    List (String × Nat) :=
  (nremoverSteps c).foldl (fun acc nc => acc ++ stepEntry removedOf nc) []

/-- C8 counterexample configuration with every stage disabled. -/
def c8CfgNone : NremoverConfig :=
  { maxMissingGlobal := 1, maxMissingPop := 1, maxMissingSample := 1, minMaf := 0,
    biallelic := false, monomorphic := false, singletons := false,
    unlinkedOnly := false, thin := none, randomSubset := none }

/-- C8 counterexample configuration with every stage enabled. -/
def c8CfgAll : NremoverConfig :=
  { maxMissingGlobal := 1/2, maxMissingPop := 1/2, maxMissingSample := 1/2,
    minMaf := 1/100, biallelic := true, monomorphic := true, singletons := true,
    unlinkedOnly := true, thin := some 100, randomSubset := some (1/2) }

/-! ## Chain state and the stateful filters (claims C7, C9, C10)

`FilteringMethods` drives an `NRemover2` chain object whose committed state
consists of the cloned alignment, the two full-length retention masks, the
sample list and the reporting lists.  The commit helpers
(`_update_loci_indices`, `_update_sample_indices`) and the search/threshold
bookkeeping (`current_threshold`, `propagate_chain`, `resolve`) belong to the
newer chain class that is not among the sources; they are modelled from the
spec where noted. -/

/-- Python errors that the embedded filters can raise. -/
inductive PyErr
  | typeError
  | valueError
  | attributeError
  | alignmentFormatError
  | fileNotFoundError
  | indexError
deriving DecidableEq

/-- One row of the filtering report (`Filter_Method`, `Threshold`,
`Removed_Count`, `Removed_Prop`; the `Step` column is omitted). -/
structure FilterRec where
  method : String
  threshold : Option ℚ
  removed : Nat
  removedProp : ℚ
deriving DecidableEq

/-- Committed state of a chain run. -/
structure ChainState where
  alignment : List (List Sym)
  loci : List Bool
  samps : List Bool
  samples : List String
  searchMode : Bool
  verbose : Bool
  filetype : String
  coords : Option (List String × List Nat)
  currentThreshold : Option ℚ
  report : List FilterRec
  sampleReport : List FilterRec
deriving DecidableEq

/-- Numpy boolean indexing `l[mask]` for equal-length operands. -/
def selectMask {α : Type} (l : List α) (m : List Bool) : List α :=
  ((l.zip m).filter (fun p => p.2)).map (fun p => p.1)

/-- Number of set entries of a boolean mask (`np.count_nonzero`). -/
def countTrue (m : List Bool) : Nat := (m.filter (fun b => b)).length

/-- The active view `alignment[sample_indices, :][:, loci_indices]`. -/
def activeView (st : ChainState) : List (List Sym) :=
  (selectMask st.alignment st.samps).map (fun row => selectMask row st.loci)

/-- The columns of a row-major matrix whose rows all have length `ncols`. -/
def columnsOf (rows : List (List Sym)) (ncols : Nat) : List (List Sym) :=
  (List.range ncols).map (fun j => rows.map (fun r => r.getD j symQm))

/-- Per-column missing counts of the active view
(`np.count_nonzero(np.isin(alignment_array, ["N", "-", ".", "?"]), axis=0)`). -/
def missingCountsPerCol (st : ChainState) : List Nat :=
  (columnsOf (activeView st) (countTrue st.loci)).map
    (fun colEntries => (colEntries.filter isMissing).length)

/-- The per-active-locus mask of `FilteringMethods.filter_missing`
(`missing_props <= threshold` with `missing_props = missing_counts /
num_samples`). -/
def fmMissingMask (st : ChainState) (t : ℚ) : List Bool :=
  (missingCountsPerCol st).map
    (fun (cnt : Nat) => decide ((cnt : ℚ) / (countTrue st.samps : ℚ) ≤ t))

/-- Scatter an active-space sub-mask back to full length:
`full_mask = np.zeros_like(mask); full_mask[mask_positions] = sub`.  Positions
that are false in the old mask stay false; true positions consume the next
sub-mask entry (false when the sub-mask is exhausted, which cannot happen for
a sub-mask sized to the active count). -/
def scatterMask : List Bool → List Bool → List Bool
  | [], _ => []
  | false :: old, sub => false :: scatterMask old sub
  | true :: old, [] => false :: scatterMask old []
  | true :: old, s :: sub => s :: scatterMask old sub

/-- Modelled from the spec: `NRemover2._update_loci_indices` is not among the
sources (only its callers in `filtering_methods.py` are).  Per §4.1 the commit
step replaces the loci mask with the scattered full-length mask and appends a
step record whose removed count and fraction come from the before/after active
counts; the record's threshold column is the one the caller passed
(`None` in search mode). -/
def updateLociIndices (st : ChainState) (fullMask : List Bool) (method : String)
    (thr : Option ℚ) : ChainState :=
  let before := countTrue st.loci
  let after := countTrue fullMask
  { st with
    loci := fullMask
    currentThreshold := thr
    report := st.report ++
      [{ method := method, threshold := thr, removed := before - after,
         removedProp := ((before - after : Nat) : ℚ) / (before : ℚ) }] }

/-- Modelled from the spec: `NRemover2._update_sample_indices`, the sample-mask
analogue of `updateLociIndices`. -/
def updateSampleIndices (st : ChainState) (fullMask : List Bool) (method : String)
    (thr : Option ℚ) : ChainState :=
  let before := countTrue st.samps
  let after := countTrue fullMask
  { st with
    samps := fullMask
    currentThreshold := thr
    sampleReport := st.sampleReport ++
      [{ method := method, threshold := thr, removed := before - after,
         removedProp := ((before - after : Nat) : ℚ) / (before : ℚ) }] }

/-- Name under which `FilteringMethods.filter_missing` reports itself
(`inspect.stack()[0][3]`). -/
def filterMissingName : String := "filter_missing"

/-- `FilteringMethods.filter_missing`.  The verbose logging and
`propagate_chain` calls do not touch the committed state; the warning branch
taken when no loci are active calls `resolve()` and then falls through to the
computation, so it is not a separate case.  A non-float threshold cannot be
represented here, so only the range check raises.  When the scattered mask
would keep zero loci the method warns, appends a full-removal record via
`_append_global_list` (using the stale `current_threshold`) and returns with
the committed masks unchanged — in search mode and in strict mode alike. -/
def fmFilterMissing (st : ChainState) (t : ℚ) : Except PyErr ChainState :=
  if t < 0 ∨ 1 < t then Except.error PyErr.valueError
  else
    let fullMask := scatterMask st.loci (fmMissingMask st t)
    if countTrue fullMask = 0 then
      Except.ok { st with report := st.report ++
        [{ method := filterMissingName, threshold := st.currentThreshold,
           removed := (fullMask.filter (fun b => !b)).length, removedProp := 1 }] }
    else
      Except.ok (updateLociIndices st fullMask filterMissingName
        (if st.searchMode then none else some t))

/-- The per-active-sample mask of `FilteringMethods.filter_missing_sample`
(missing fraction of each active row over the active locus count). -/
def fmSampleMissingMask (st : ChainState) (t : ℚ) : List Bool :=
  (activeView st).map
    (fun row => decide (((row.filter isMissing).length : ℚ) / (countTrue st.loci : ℚ) ≤ t))

/-- Name under which `FilteringMethods.filter_missing_sample` reports itself. -/
def filterMissingSampleName : String := "filter_missing_sample"

/-- `FilteringMethods.filter_missing_sample`: returns unchanged when no loci
are active or the active view is empty; otherwise scatters the per-sample mask
into the sample mask, returning unchanged (with a sample-report entry) when
nothing would remain, else committing via the modelled
`_update_sample_indices`. -/
def fmFilterMissingSample (st : ChainState) (t : ℚ) : Except PyErr ChainState :=
  if countTrue st.loci = 0 then Except.ok st
  else if countTrue st.samps = 0 ∨ countTrue st.loci = 0 then Except.ok st
  else
    let fullMask := scatterMask st.samps (fmSampleMissingMask st t)
    if countTrue fullMask = 0 then
      Except.ok { st with sampleReport := st.sampleReport ++
        [{ method := filterMissingSampleName, threshold := st.currentThreshold,
           removed := countTrue st.samps, removedProp := 1 }] }
    else
      Except.ok (updateSampleIndices st fullMask filterMissingSampleName
        (if st.searchMode then none else some t))

/-! ## `FilteringMethods.thin_loci` (claim C10)

The method's first statement under `if self.nremover.verbose:` is
`self.logger.infO(...)`; the logger used throughout the sources exposes
`info`, `warning`, `error` and `debug`, so the attribute lookup `infO` raises
`AttributeError` before anything else happens. -/

/-- The methods available on the chain's logger, as used by the sources
(`logger.info`, `logger.warning`, `logger.error`, `logger.debug`). -/
inductive LoggerMethod
  | info
  | warning
  | error
  | debug

/-- Python attribute lookup on the logger: resolving a name that is not one of
the four methods raises `AttributeError`. -/
def loggerAttr (nm : String) : Option LoggerMethod :=
  if nm = "info" then some LoggerMethod.info
  else if nm = "warning" then some LoggerMethod.warning
  else if nm = "error" then some LoggerMethod.error
  else if nm = "debug" then some LoggerMethod.debug
  else none

/-- Stable insertion of an `(index, value)` pair into a list sorted by value
(used to model `np.argsort` over integer position values). -/
def insertIdxVal (p : Nat × Nat) : List (Nat × Nat) → List (Nat × Nat)
  | [] => [p]
  | q :: qs => if p.2 ≤ q.2 then p :: q :: qs else q :: insertIdxVal p qs

/-- `np.argsort` over natural position values. -/
def argsortNat (l : List Nat) : List Nat :=
  (l.enum.foldr insertIdxVal []).map Prod.fst

/-- `np.diff` over natural positions, as integers. -/
def natDiffs : List Nat → List Int
  | [] => []
  | [_] => []
  | a :: b :: rest => ((b : Int) - (a : Int)) :: natDiffs (b :: rest)

/-- First-occurrence deduplication of the chromosome names.  (`np.unique`
returns them sorted; the per-chromosome passes of `thin_loci` are applied in
some fixed order and no theorem below depends on which.) -/
def dedupFirst (l : List String) : List String :=
  l.foldl (fun acc c => if acc.contains c then acc else acc ++ [c]) []

/-- One chromosome pass of the loop in `FilteringMethods.thin_loci`:
`chrom_indices = np.logical_and(chrom_mask, to_keep)` is a full-length boolean
array, `sorted_indices = chrom_indices[sorted_order]` therefore picks its first
`k` entries in sorted-order permutation, and
`to_keep[sorted_indices[:-1][diff <= size]] = False` indexes `to_keep` with a
boolean array whose length is the number of close pairs — numpy raises
`IndexError` unless that length matches `len(to_keep)`. -/
def fmThinChrom (chroms : List String) (pos : List Nat) (size : Int)
    (toKeep : List Bool) (c : String) : Except PyErr (List Bool) :=
  let chromMask := chroms.map (fun x => decide (x = c))
  let chromPositions := selectMask pos chromMask
  let chromIndices := (chromMask.zip toKeep).map (fun p => p.1 && p.2)
  let sortedOrder := argsortNat chromPositions
  let sortedPositions := sortedOrder.map (fun o => chromPositions.getD o 0)
  let sortedIndices := sortedOrder.map (fun o => chromIndices.getD o false)
  let diff := natDiffs sortedPositions
  let sel := ((sortedIndices.take (sortedIndices.length - 1)).zip diff).filterMap
    (fun p => if p.2 ≤ size then some p.1 else none)
  if sel.length = toKeep.length then
    Except.ok ((toKeep.zip sel).map (fun p => if p.2 then false else p.1))
  else Except.error PyErr.indexError

/-- Name under which `FilteringMethods.thin_loci` reports itself. -/
def thinLociName : String := "thin_loci"

/-- Body of `FilteringMethods.thin_loci` after the verbose branch: filetype
check, active-loci check, coordinate read (`h5py.File` raises when the
attribute file is absent), `to_keep = np.ones_like(pos); to_keep[~loci] =
False` (an `IndexError` when the lengths disagree, otherwise a copy of the
loci mask), then the per-chromosome loop and the usual empty-result/commit
epilogue. -/
def fmThinBody (st : ChainState) (size : Int) : Except PyErr ChainState :=
  if st.filetype ≠ "vcf" then Except.error PyErr.alignmentFormatError
  else if countTrue st.loci = 0 then Except.ok st
  else
    match st.coords with
    | none => Except.error PyErr.fileNotFoundError
    | some (chroms, pos) =>
      if st.loci.length ≠ pos.length then Except.error PyErr.indexError
      else
        match (dedupFirst chroms).foldlM (fun acc c => fmThinChrom chroms pos size acc c)
          st.loci with
        | Except.error e => Except.error e
        | Except.ok kept =>
          if countTrue kept = 0 then
            Except.ok { st with report := st.report ++
              [{ method := thinLociName, threshold := st.currentThreshold,
                 removed := (kept.filter (fun b => !b)).length, removedProp := 1 }] }
          else
            Except.ok (updateLociIndices st kept thinLociName
              (if st.searchMode then none else some ((size : ℤ) : ℚ)))

/-- `FilteringMethods.thin_loci`: when the chain is verbose the first statement
resolves the misspelled attribute `logger.infO`, which does not exist. -/
def fmThinLoci (st : ChainState) (size : Int) : Except PyErr ChainState :=
  if st.verbose then
    match loggerAttr "infO" with
    | none => Except.error PyErr.attributeError
    | some _ => fmThinBody st size
  else fmThinBody st size

/-- C10 witness state: a fully populated, coordinate-bearing, verbose chain. -/
def c10St : ChainState :=
  { alignment := [[symA]], loci := [true], samps := [true], samples := ["s1"],
    searchMode := false, verbose := true, filetype := "vcf",
    coords := some (["1"], [100]), currentThreshold := none,
    report := [], sampleReport := [] }

/-! ## Empty-result behaviour of the missing-data filters (claim C7) -/

/-- C7 family of states: one sample, one all-missing locus; the search flag is
the parameter. -/
def c7Base (sm : Bool) : ChainState :=
  { alignment := [[symN]], loci := [true], samps := [true], samples := ["s1"],
    searchMode := sm, verbose := false, filetype := "phylip", coords := none,
    currentThreshold := none, report := [], sampleReport := [] }

/-! ## Retention-mask invariants (claim C9) -/

/-- C9 witness state: one clean sample and locus, committed successfully. -/
def c9St : ChainState :=
  { alignment := [[symA]], loci := [true], samps := [true], samples := ["s1"],
    searchMode := false, verbose := false, filetype := "phylip", coords := none,
    currentThreshold := none, report := [], sampleReport := [] }

/-! ## `NRemover2.thin_loci` (claim C3)

The loop converts positions to strings (`pos = pos.astype(str)`) and argsorts
the *strings*, so the order is lexicographic on the decimal representations;
the scan starts from `last_kept_position = -1` and clears
`to_keep[sorted_indices[i]]` whenever `int(current_pos) - last_kept_position <=
threshold`, otherwise updating the last kept position. -/

/-- Lexicographic comparison of character lists, as numpy compares fixed-width
unicode strings. -/
def charListLt : List Char → List Char → Bool
  | _, [] => false
  | [], _ :: _ => true
  | a :: as, b :: bs => if a < b then true else if b < a then false else charListLt as bs

/-- Stable insertion of an `(position, index)` pair into a list sorted by the
decimal-string key of the position (`np.argsort` of `pos.astype(str)`). -/
def insertPosIdxStr (p : Nat × Nat) : List (Nat × Nat) → List (Nat × Nat)
  | [] => [p]
  | q :: qs =>
    if !charListLt (Nat.repr q.1).data (Nat.repr p.1).data then p :: q :: qs
    else q :: insertPosIdxStr p qs

/-- Sort `(position, index)` pairs by the decimal-string key of the position. -/
def sortPosIdxStr (l : List (Nat × Nat)) : List (Nat × Nat) :=
  l.foldr insertPosIdxStr []

/-- Stable insertion of an `(position, index)` pair into a list sorted by
numeric position (used only by the claim-as-written reference below). -/
def insertPosIdxNum (p : Nat × Nat) : List (Nat × Nat) → List (Nat × Nat)
  | [] => [p]
  | q :: qs => if p.1 ≤ q.1 then p :: q :: qs else q :: insertPosIdxNum p qs

/-- Sort `(position, index)` pairs by numeric position. -/
def sortPosIdxNum (l : List (Nat × Nat)) : List (Nat × Nat) :=
  l.foldr insertPosIdxNum []

/-- The `(position, original index)` pairs of one chromosome
(`chrom_positions = pos[chrom_mask]`, `chrom_indices =
np.arange(len(pos))[chrom_mask]`). -/
def chromPairs (chroms : List String) (pos : List Nat) (c : String) : List (Nat × Nat) :=
  (List.range pos.length).filterMap
    (fun i => if chroms.getD i (String.mk []) = c then some (pos.getD i 0, i) else none)

/-- The scan loop of `NRemover2.thin_loci` over one chromosome's sorted pairs:
clear the index when the position is within `w` of the last kept position
(initially −1), otherwise record the position as last kept. -/
def nrThinScan (w : Int) : List Bool → Int → List (Nat × Nat) → List Bool
  | keep, _, [] => keep
  | keep, last, pi :: rest =>
    if (pi.1 : Int) - last ≤ w then nrThinScan w (keep.set pi.2 false) last rest
    else nrThinScan w keep (pi.1 : Int) rest

/-- `NRemover2.thin_loci` as a function of the coordinate table: start from an
all-true `to_keep` over all loci and run the scan for every chromosome. -/
def nrThinLoci (chroms : List String) (pos : List Nat) (w : Int) : List Bool :=
  (dedupFirst chroms).foldl
    (fun keep c => nrThinScan w keep (-1) (sortPosIdxStr (chromPairs chroms pos c)))
    (List.replicate pos.length true)

/-- The indices dropped by the scan, in scan order (same recursion as
`nrThinScan`, collecting instead of writing). -/
def greedyDrops (w : Int) : Int → List (Nat × Nat) → List Nat
  | _, [] => []
  | last, pi :: rest =>
    if (pi.1 : Int) - last ≤ w then pi.2 :: greedyDrops w last rest
    else greedyDrops w (pi.1 : Int) rest

/-- The thinning rule as amended: a locus is kept iff the scan of its own
chromosome's pairs — sorted by the decimal-string key and started from a last
kept position of −1 — does not drop it. -/
def amendedThinKeep (chroms : List String) (pos : List Nat) (w : Int) : List Bool :=
  (List.range pos.length).map
    (fun i =>
      !(greedyDrops w (-1)
          (sortPosIdxStr (chromPairs chroms pos (chroms.getD i (String.mk []))))).contains i)

/-- The scan exactly as claim C3 states it: the first locus in sort order is
kept, and a subsequent locus is dropped when it is within `w` bases of the last
kept one. -/
def claimThinDrops (w : Int) : Option Int → List (Nat × Nat) → List Nat
  | _, [] => []
  | none, pi :: rest => claimThinDrops w (some (pi.1 : Int)) rest
  | some last, pi :: rest =>
    if (pi.1 : Int) - last ≤ w then pi.2 :: claimThinDrops w (some last) rest
    else claimThinDrops w (some (pi.1 : Int)) rest

/-- The thinning rule exactly as claim C3 states it: per chromosome, sort by
numeric position ascending, keep the first locus, drop each subsequent locus
within `w` bases of the last kept one. -/
def claimThinKeep (chroms : List String) (pos : List Nat) (w : Int) : List Bool :=
  (List.range pos.length).map
    (fun i =>
      !(claimThinDrops w none
          (sortPosIdxNum (chromPairs chroms pos (chroms.getD i (String.mk []))))).contains i)

/-- Applying a list of drop indices to a keep mask (the accumulated
`to_keep[...] = False` writes of the scan). -/
def applyDrops (keep : List Bool) (drops : List Nat) : List Bool :=
  drops.foldl (fun k i => k.set i false) keep

/-! ## Theorems -/

/-- Helper: a population mask entry is `none` exactly when the population has no
active samples. -/
theorem fmPopMask_eq_none {col : List Sym} {samples sampleIds : List String} {t : ℚ} :
    fmPopMask col samples sampleIds t = none ↔ fmPopIndices samples sampleIds = [] := by
  unfold fmPopMask
  by_cases h : (fmPopIndices samples sampleIds).isEmpty
  · simp [h, List.isEmpty_iff.mp h]
  · simp only [h]
    simp [List.isEmpty_iff] at h
    simp [h]

/-- Helper: value of a present population mask entry. -/
theorem fmPopMask_eq_some {col : List Sym} {samples sampleIds : List String} {t : ℚ} {b : Bool}
    (h : fmPopMask col samples sampleIds t = some b) :
    fmPopIndices samples sampleIds ≠ [] ∧
      (b = true ↔
        (countMissingAt col (fmPopIndices samples sampleIds) : ℚ) /
            ((fmPopIndices samples sampleIds).length : ℚ) ≤ t) := by
  unfold fmPopMask at h
  by_cases he : (fmPopIndices samples sampleIds).isEmpty
  · simp [he] at h
  · simp only [he, if_false] at h
    simp [List.isEmpty_iff] at he
    refine ⟨he, ?_⟩
    cases h
    simp

/-- C1 counterexample: the claim's rule treats the single-sample population as
100% missing and drops the locus at threshold 1/2, but
`FilteringMethods.filter_missing_pop` computes the population's actual missing
fraction (0) and keeps it. -/
theorem c1_counterexample :
    fmFilterMissingPopKeep c1Col c1Samples c1Pops (1/2) = true ∧
      claimPopKeep c1Col c1Samples c1Pops (1/2) = false := by
  have hidx : fmPopIndices c1Samples ["s1"] = [0] := by decide
  have hcnt : countMissingAt c1Col [0] = 0 := by decide
  constructor
  · unfold fmFilterMissingPopKeep fmPopMask c1Pops
    simp only [List.filterMap_cons, List.filterMap_nil, hidx, hcnt]
    norm_num
  · unfold claimPopKeep c1Pops
    simp only [List.all_cons, List.all_nil, hidx, hcnt]
    norm_num

/-- C1 (amended): `FilteringMethods.filter_missing_pop` keeps a locus iff some
population has at least one active sample and every population that has at
least one active sample has its actual within-population missing fraction at
most the threshold (single-sample populations use their actual fraction and
populations with no active samples are skipped), while
`NRemover2.filter_missing_pop` keeps a locus iff at least one population's
proportion (1 when at most one of its sample ids remains) is at most the
threshold. -/
theorem c1_missing_pop_semantics (col : List Sym) (samples : List String)
    (pops : List (List String)) (t : ℚ) :
    (fmFilterMissingPopKeep col samples pops t = true ↔
      (∃ ids ∈ pops, fmPopIndices samples ids ≠ []) ∧
        ∀ ids ∈ pops, fmPopIndices samples ids ≠ [] →
          (countMissingAt col (fmPopIndices samples ids) : ℚ) /
              ((fmPopIndices samples ids).length : ℚ) ≤ t) ∧
    (nrFilterMissingPopKeep col samples pops t = true ↔
      ∃ ids ∈ pops, nrMissingDataProportion col (nrPopIndices samples ids) ≤ t) := by
  constructor
  · unfold fmFilterMissingPopKeep
    by_cases hmp : pops.filterMap (fun ids => fmPopMask col samples ids t) = []
    · rw [if_pos (List.isEmpty_iff.mpr hmp)]
      rw [List.filterMap_eq_nil_iff] at hmp
      constructor
      · intro h
        exact absurd h (by decide)
      · intro ⟨⟨ids, hmem, hni⟩, _⟩
        exact (hni (fmPopMask_eq_none.mp (hmp ids hmem))).elim
    · rw [if_neg (fun hcond => hmp (List.isEmpty_iff.mp hcond)), List.all_eq_true]
      constructor
      · intro h
        constructor
        · rcases List.exists_mem_of_ne_nil _ hmp with ⟨b, hb⟩
          rcases List.mem_filterMap.mp hb with ⟨ids, hmem, hsome⟩
          exact ⟨ids, hmem, (fmPopMask_eq_some hsome).1⟩
        · intro ids hmem hni
          rcases h' : fmPopMask col samples ids t with _ | b
          · exact (hni (fmPopMask_eq_none.mp h')).elim
          · have hb : b ∈ pops.filterMap (fun ids => fmPopMask col samples ids t) :=
              List.mem_filterMap.mpr ⟨ids, hmem, h'⟩
            exact ((fmPopMask_eq_some h').2).mp (h b hb)
      · intro ⟨_, hall⟩
        intro b hb
        rcases List.mem_filterMap.mp hb with ⟨ids, hmem, hsome⟩
        rcases fmPopMask_eq_some hsome with ⟨hni, hiff⟩
        exact hiff.mpr (hall ids hmem hni)
  · unfold nrFilterMissingPopKeep
    rw [List.any_eq_true]
    constructor
    · intro ⟨ids, hmem, hdec⟩
      exact ⟨ids, hmem, of_decide_eq_true hdec⟩
    · intro ⟨ids, hmem, hle⟩
      exact ⟨ids, hmem, decide_eq_true hle⟩

/-- C2 failing input: on `[A,A,A,A,A,A,A,T,T,W]` the `count_bases` of
`FilteringMethods._compute_maf_proportions` double-counts the exact matches
through the identity entries of `ambiguous_dna_values` (giving A = 14.5 and
T = 4.5 instead of the claimed 7.5 and 2.5) so the minor allele frequency is
9/38, not 0.25, and the `count_bases` of
`NRemover2.filter_minor_allele_frequency` adds a full 1 per constituent base of
W (giving A = 8 and T = 3, minor allele frequency 3/11). -/
theorem c2_maf_count_bases_bug :
    fmCountBases c2Column = { a := 29/2, c := 0, g := 0, t := 9/2 } ∧
      fmMinorAlleleFrequency c2Column = 9/38 ∧
      ¬ fmMinorAlleleFrequency c2Column = 1/4 ∧
      nrCountBases c2Column = { a := 8, c := 0, g := 0, t := 3 } ∧
      nrMinorAlleleFrequency c2Column = 3/11 ∧
      ¬ (fmCountBases c2Column).a = 15/2 := by
  have hA : countSym c2Column symA = 7 := by decide
  have hC : countSym c2Column symC = 0 := by decide
  have hG : countSym c2Column symG = 0 := by decide
  have hT : countSym c2Column symT = 2 := by decide
  have hW : countSym c2Column symW = 1 := by decide
  have hM : countSym c2Column symM = 0 := by decide
  have hR : countSym c2Column symR = 0 := by decide
  have hS : countSym c2Column symS = 0 := by decide
  have hY : countSym c2Column symY = 0 := by decide
  have hK : countSym c2Column symK = 0 := by decide
  have hV : countSym c2Column symV = 0 := by decide
  have hH : countSym c2Column symH = 0 := by decide
  have hD : countSym c2Column symD = 0 := by decide
  have hB : countSym c2Column symB = 0 := by decide
  have hX : countSym c2Column symX = 0 := by decide
  have hN : countSym c2Column symN = 0 := by decide
  have hfm : fmCountBases c2Column = { a := 29/2, c := 0, g := 0, t := 9/2 } := by
    unfold fmCountBases ambiguousDnaValues
    simp only [List.foldl_cons, List.foldl_nil, hA, hC, hG, hT, hW, hM, hR, hS, hY, hK,
      hV, hH, hD, hB, hX, hN]
    simp [addToBase, symA, symC, symG, symT, symM, symR, symW, symS, symY, symK, symV,
      symH, symD, symB, symX, symN, BaseCounts.mk.injEq]
    norm_num
  have hnr : nrCountBases c2Column = { a := 8, c := 0, g := 0, t := 3 } := by
    unfold nrCountBases c2Column
    simp only [List.foldl_cons, List.foldl_nil]
    simp [nrCountBasesStep, addToBase, isMissing, missingMarkers, ambiguousDnaValues,
      symA, symC, symG, symT, symW, symM, symR, symS, symY, symK, symV, symH, symD, symB,
      symX, symN, symGap, symDot, symQm, List.filter, BaseCounts.mk.injEq]
    norm_num
  refine ⟨hfm, ?_, ?_, hnr, ?_, ?_⟩
  · unfold fmMinorAlleleFrequency
    rw [hfm]
    norm_num [sortDesc, insertDesc]
  · unfold fmMinorAlleleFrequency
    rw [hfm]
    norm_num [sortDesc, insertDesc]
  · unfold nrMinorAlleleFrequency
    rw [hnr]
    norm_num [sortDesc, insertDesc]
  · rw [hfm]
    norm_num

/-- Helper: characterisation of `List.min?` on naturals. -/
theorem natMin?_eq_some_iff {L : List Nat} {m : Nat} :
    L.min? = some m ↔ m ∈ L ∧ ∀ b ∈ L, m ≤ b := by
  have hor : ∀ a b : Nat, min a b = a ∨ min a b = b := by
    intro a b
    rcases Nat.le_total a b with h | h
    · exact Or.inl (Nat.min_eq_left h)
    · exact Or.inr (Nat.min_eq_right h)
  exact List.min?_eq_some_iff (fun a => Nat.le_refl a) hor (fun a b c => Nat.le_min)

/-- Helper: every member of a list occurs at least once. -/
theorem countSym_pos_of_mem {l : List Sym} {al : Sym} (h : al ∈ l) :
    1 ≤ countSym l al := by
  unfold countSym
  have : al ∈ l.filter (fun x => x = al) := List.mem_filter.mpr ⟨h, by simp⟩
  calc 1 ≤ 1 := Nat.le_refl 1
    _ ≤ (l.filter (fun x => x = al)).length :=
      Nat.succ_le_of_lt (List.length_pos.mpr (List.ne_nil_of_mem this))

/-- Helper: for a nonempty list of positive naturals, the minimum is 1 iff some
entry is 1. -/
theorem min?_getD_eq_one_iff {L : List Nat} (hne : L ≠ [])
    (hpos : ∀ x ∈ L, 1 ≤ x) : L.min?.getD 0 = 1 ↔ ∃ x ∈ L, x = 1 := by
  rcases hm : L.min? with _ | m
  · exact absurd (List.min?_eq_none_iff.mp hm) hne
  · rcases natMin?_eq_some_iff.mp hm with ⟨hmem, hle⟩
    simp only [Option.getD_some]
    constructor
    · intro h
      exact ⟨m, hmem, h⟩
    · intro ⟨x, hx, hx1⟩
      have h1 := hle x hx
      have h2 := hpos m hmem
      omega

/-- C4 counterexample: the claim retains every locus that does not have exactly
two distinct valid alleles, but `FilteringMethods.filter_singletons` marks this
three-allele column for removal because its test uses `len(allele_count) >= 2`
rather than `== 2`. -/
theorem c4_counterexample :
    fmIsSingleton c4Col false = true ∧ claimSingletonDrop c4Col false = false := by
  constructor <;> decide

/-- C4 (amended): `FilteringMethods.filter_singletons` drops a locus iff it has
at least two distinct valid alleles and some valid allele occurs exactly once
(so loci with three or more distinct alleles can also be dropped), while
`NRemover2.filter_singletons` keeps a locus iff it has exactly two distinct
non-missing alleles and no allele occurring exactly once (so it also drops
monomorphic and three-plus-allele loci); the claim's examples hold: counts
{A:9, T:1} are removed and {A:5, T:5} kept by both versions. -/
theorem c4_singleton_semantics :
    (∀ (col : List Sym) (eh : Bool),
      (fmIsSingleton col eh = true ↔
        2 ≤ (distinctValid col eh).length ∧
          ∃ al ∈ distinctValid col eh, countSym (validSyms col eh) al = 1) ∧
      (nrIsSingletonKeep col = true ↔
        (nrAlleles col).length = 2 ∧ ∀ al ∈ nrAlleles col, countSym col al ≠ 1)) ∧
    fmIsSingleton c4ColNine false = true ∧ nrIsSingletonKeep c4ColNine = false ∧
    fmIsSingleton c4ColFive false = false ∧ nrIsSingletonKeep c4ColFive = true := by
  refine ⟨?_, by decide, by decide, by decide, by decide⟩
  intro col eh
  constructor
  · unfold fmIsSingleton
    by_cases h2 : 2 ≤ (fmAlleleCounts col eh).length
    · rw [if_pos h2]
      have hlen : (fmAlleleCounts col eh).length = (distinctValid col eh).length := by
        unfold fmAlleleCounts
        exact List.length_map _ _
      have hne : (fmAlleleCounts col eh).map Prod.snd ≠ [] := by
        intro hnil
        have := congrArg List.length hnil
        simp only [List.length_map, List.length_nil] at this
        omega
      have hpos : ∀ x ∈ (fmAlleleCounts col eh).map Prod.snd, 1 ≤ x := by
        intro x hx
        rcases List.mem_map.mp hx with ⟨p, hp, hsnd⟩
        rcases List.mem_map.mp hp with ⟨al, hal, hpair⟩
        have halv : al ∈ validSyms col eh := List.mem_dedup.mp hal
        subst hpair
        simp only at hsnd
        subst hsnd
        exact countSym_pos_of_mem halv
      rw [decide_eq_true_iff, min?_getD_eq_one_iff hne hpos]
      constructor
      · intro ⟨x, hx, hx1⟩
        rcases List.mem_map.mp hx with ⟨p, hp, hsnd⟩
        rcases List.mem_map.mp hp with ⟨al, hal, hpair⟩
        subst hpair
        simp only at hsnd
        refine ⟨by omega, al, hal, by omega⟩
      · intro ⟨_, al, hal, h1⟩
        refine ⟨countSym (validSyms col eh) al, ?_, h1⟩
        exact List.mem_map.mpr ⟨(al, countSym (validSyms col eh) al),
          List.mem_map.mpr ⟨al, hal, rfl⟩, rfl⟩
    · rw [if_neg h2]
      have hlen : (fmAlleleCounts col eh).length = (distinctValid col eh).length := by
        unfold fmAlleleCounts
        exact List.length_map _ _
      constructor
      · intro h
        exact absurd h (by decide)
      · intro ⟨hge, _⟩
        omega
  · unfold nrIsSingletonKeep
    by_cases h2 : (nrAlleles col).length = 2
    · rw [if_pos h2]
      have hne : (nrAlleles col).map (fun al => countSym col al) ≠ [] := by
        intro hnil
        have := congrArg List.length hnil
        simp only [List.length_map, List.length_nil] at this
        omega
      have hpos : ∀ x ∈ (nrAlleles col).map (fun al => countSym col al), 1 ≤ x := by
        intro x hx
        rcases List.mem_map.mp hx with ⟨al, hal, hcount⟩
        have halm : al ∈ col := List.mem_of_mem_filter (List.mem_dedup.mp hal)
        subst hcount
        exact countSym_pos_of_mem halm
      rw [decide_eq_true_iff, min?_getD_eq_one_iff hne hpos]
      constructor
      · intro h
        refine ⟨h2, fun al hal h1 => h ⟨countSym col al, List.mem_map.mpr ⟨al, hal, rfl⟩, h1⟩⟩
      · intro ⟨_, hall⟩ ⟨x, hx, hx1⟩
        rcases List.mem_map.mp hx with ⟨al, hal, hcount⟩
        subst hcount
        exact hall al hal hx1
    · rw [if_neg h2]
      constructor
      · intro h
        exact absurd h (by decide)
      · intro ⟨heq, _⟩
        exact absurd heq h2

/-- C5 failing input: the constant column `[A, A, A]` has exactly one distinct
valid allele, so the claim's rule (`drop iff unique-valid-allele count ≤ 1`)
drops it; `FilteringMethods.filter_monomorphic` counts 3 valid entries and
keeps it (in both heterozygous modes), and `NRemover2.filter_monomorphic` keeps
it as well because its test is `len(valid_alleles) >= 1`. -/
theorem c5_monomorphic_bug :
    fmMonoKeep [symA, symA, symA] false = true ∧
      fmMonoKeep [symA, symA, symA] true = true ∧
      nrMonoKeep [symA, symA, symA] = true ∧
      (distinctValid [symA, symA, symA] false).length = 1 := by
  refine ⟨by decide, by decide, by decide, by decide⟩

/-- C6 failing input: on `[A, A, R]` with `exclude_heterozygous=True` the
claim's rule drops the ambiguity-coded genotype R entirely, leaving one
distinct valid allele, so the locus must not be kept; the code instead counts
R as its own symbol, getting 2 distinct symbols, and keeps the locus. -/
theorem c6_biallelic_bug :
    fmBiallelicKeep [symA, symA, symR] true = true ∧
      fmCountValidBasesBiallelic [symA, symA, symR] true = 2 ∧
      (distinctValid [symA, symA, symR] true).length = 1 := by
  refine ⟨by decide, by decide, by decide⟩

/-- Helper: appending folds decompose over the accumulator. -/
theorem foldl_append_acc {α β : Type} (g : α → List β) (l : List α) (acc : List β) :
    l.foldl (fun acc x => acc ++ g x) acc = acc ++ l.flatMap g := by
  induction l generalizing acc with
  | nil => simp
  | cons x xs ih =>
    simp only [List.foldl_cons, List.flatMap_cons, ih, List.append_assoc]

/-- Helper: a stage whose name differs from the sample stage always reports
exactly its own name, whether enabled or not. -/
theorem stepEntry_fst_of_ne (removedOf : String → Nat) (nm : String) (cond : Bool)
    (h : ¬ nm = sampleStepName) :
    (stepEntry removedOf (nm, cond)).map Prod.fst = [nm] := by
  unfold stepEntry
  cases cond <;> simp [h]

/-- C8 counterexample: the step report never has 11 entries.  With every stage
disabled it has 10 zero-effect entries (there is no minor-allele-count stage),
and with every stage enabled it has 9 entries, because the enabled sample
filter appends no record. -/
theorem c8_counterexample :
    (lociRemovedPerStep c8CfgNone (fun _ => 0)).length = 10 ∧
      (lociRemovedPerStep c8CfgAll (fun _ => 0)).length = 9 := by
  constructor
  · unfold lociRemovedPerStep nremoverSteps c8CfgNone
    norm_num [stepEntry, sampleStepName]
  · unfold lociRemovedPerStep nremoverSteps c8CfgAll
    norm_num [stepEntry, sampleStepName]
    all_goals decide

/-- C8 (amended): for every configuration and any removal counts, the step
report lists the code's 10 stages in their fixed order, except that an enabled
sample-filter stage is omitted; disabled stages still contribute zero-effect
records (their names appear with count 0), and consequently the report length
is 9 when the sample filter is enabled and 10 otherwise. -/
theorem c8_step_report_structure (c : NremoverConfig) (removedOf : String → Nat) :
    (lociRemovedPerStep c removedOf).map Prod.fst =
      ["Filter linked loci", "Thin Loci", "Randomly Subset Loci"] ++
        (if c.maxMissingSample < 1 then [] else [sampleStepName]) ++
        ["Filter monomorphic sites", "Filter singletons", "Filter non-biallelic sites",
         "Filter missing data (global)", "Filter missing data (population)",
         "Filter minor allele frequency"] ∧
    (lociRemovedPerStep c removedOf).length =
      (if c.maxMissingSample < 1 then 9 else 10) := by
  have hmap : (lociRemovedPerStep c removedOf).map Prod.fst =
      ["Filter linked loci", "Thin Loci", "Randomly Subset Loci"] ++
        (if c.maxMissingSample < 1 then [] else [sampleStepName]) ++
        ["Filter monomorphic sites", "Filter singletons", "Filter non-biallelic sites",
         "Filter missing data (global)", "Filter missing data (population)",
         "Filter minor allele frequency"] := by
    unfold lociRemovedPerStep
    rw [foldl_append_acc]
    unfold nremoverSteps
    simp only [List.flatMap_cons, List.flatMap_nil, List.map_append, List.append_nil,
      List.nil_append, List.map_nil]
    rw [stepEntry_fst_of_ne removedOf ("Filter linked loci") c.unlinkedOnly (by decide),
      stepEntry_fst_of_ne removedOf ("Thin Loci") c.thin.isSome (by decide),
      stepEntry_fst_of_ne removedOf ("Randomly Subset Loci") c.randomSubset.isSome (by decide),
      stepEntry_fst_of_ne removedOf ("Filter monomorphic sites") c.monomorphic (by decide),
      stepEntry_fst_of_ne removedOf ("Filter singletons") c.singletons (by decide),
      stepEntry_fst_of_ne removedOf ("Filter non-biallelic sites") c.biallelic (by decide),
      stepEntry_fst_of_ne removedOf ("Filter missing data (global)")
        (decide (c.maxMissingGlobal < 1)) (by decide),
      stepEntry_fst_of_ne removedOf ("Filter missing data (population)")
        (decide (c.maxMissingPop < 1)) (by decide),
      stepEntry_fst_of_ne removedOf ("Filter minor allele frequency")
        (decide (0 < c.minMaf)) (by decide)]
    by_cases hs : c.maxMissingSample < 1
    · rw [if_pos hs]
      have : decide (c.maxMissingSample < 1) = true := decide_eq_true hs
      unfold stepEntry
      simp [this, sampleStepName]
    · rw [if_neg hs]
      have : decide (c.maxMissingSample < 1) = false := decide_eq_false hs
      unfold stepEntry
      simp [this, sampleStepName]
  refine ⟨hmap, ?_⟩
  have hlen : (lociRemovedPerStep c removedOf).length =
      ((lociRemovedPerStep c removedOf).map Prod.fst).length :=
    (List.length_map _ _).symm
  rw [hlen, hmap]
  by_cases hs : c.maxMissingSample < 1
  · simp [hs]
  · simp [hs]

/-- C10: for every chain state and threshold, a verbose `thin_loci` call fails
with `AttributeError` from the misspelled `logger.infO` before the filetype
check, the coordinate read or any mask access, so no state update can occur
and verbose thinning can never complete. -/
theorem c10_thin_verbose_attribute_error (st : ChainState) (size : Int)
    (h : st.verbose = true) :
    fmThinLoci st size = Except.error PyErr.attributeError := by
  unfold fmThinLoci
  simp [h, loggerAttr]

/-- C10 witness: the theorem applied at a concrete verbose state. -/
theorem c10_witness :
    c10St.verbose = true ∧ fmThinLoci c10St 100 = Except.error PyErr.attributeError :=
  ⟨rfl, c10_thin_verbose_attribute_error c10St 100 rfl⟩

/-- Helper: at threshold 1/2 the sub-mask of `filter_missing` on the C7 state
drops its only (fully missing) locus. -/
theorem c7_mask_eval (sm : Bool) : fmMissingMask (c7Base sm) (1/2) = [false] := by
  have hcnt : missingCountsPerCol (c7Base sm) = [1] := by cases sm <;> decide
  have hsamps : countTrue (c7Base sm).samps = 1 := by cases sm <;> decide
  unfold fmMissingMask
  rw [hcnt, hsamps]
  simp only [List.map_cons, List.map_nil]
  rw [decide_eq_false (by norm_num : ¬ (((1 : Nat) : ℚ) / ((1 : Nat) : ℚ) ≤ 1/2))]

/-- C7 counterexample: in strict mode (`search_mode=False`), a stage whose
sub-mask would leave zero active loci does not abort: `filter_missing` logs,
appends a full-removal record and returns successfully with the committed
masks unchanged. -/
theorem c7_counterexample :
    fmFilterMissing (c7Base false) (1/2) =
      Except.ok { c7Base false with report :=
        [{ method := filterMissingName, threshold := none, removed := 1,
           removedProp := 1 }] } := by
  unfold fmFilterMissing
  rw [if_neg (by norm_num)]
  have hfull : scatterMask (c7Base false).loci (fmMissingMask (c7Base false) (1/2)) =
      [false] := by
    rw [c7_mask_eval false]
    decide
  rw [hfull]
  rfl

/-- C7 (amended): whenever the scattered sub-mask of `filter_missing` would
keep zero loci, the call returns successfully with the committed masks exactly
as before the stage and a full-removal report entry appended — in search mode
and in strict (non-search) mode alike; no abort exists. -/
theorem c7_empty_result_soft (st : ChainState) (t : ℚ)
    (hrange : ¬ (t < 0 ∨ 1 < t))
    (hempty : countTrue (scatterMask st.loci (fmMissingMask st t)) = 0) :
    fmFilterMissing st t =
      Except.ok { st with report := st.report ++
        [{ method := filterMissingName, threshold := st.currentThreshold,
           removed := ((scatterMask st.loci (fmMissingMask st t)).filter
             (fun b => !b)).length,
           removedProp := 1 }] } := by
  unfold fmFilterMissing
  rw [if_neg hrange, if_pos hempty]

/-- C7 witness: the amended theorem applied in search mode at a concrete state
with the two hypotheses discharged. -/
theorem c7_witness :
    fmFilterMissing (c7Base true) (1/2) =
      Except.ok { c7Base true with report :=
        [{ method := filterMissingName, threshold := none, removed := 1,
           removedProp := 1 }] } := by
  have hempty : countTrue (scatterMask (c7Base true).loci
      (fmMissingMask (c7Base true) (1/2))) = 0 := by
    rw [c7_mask_eval true]
    decide
  have h := c7_empty_result_soft (c7Base true) (1/2) (by norm_num) hempty
  rw [h]
  rw [c7_mask_eval true]
  rfl

/-- Helper: `countTrue` ignores a cleared head. -/
theorem countTrue_cons_false (m : List Bool) : countTrue (false :: m) = countTrue m := by
  simp [countTrue, List.filter_cons]

/-- Helper: `countTrue` counts a set head. -/
theorem countTrue_cons_true (m : List Bool) : countTrue (true :: m) = countTrue m + 1 := by
  simp [countTrue, List.filter_cons]

/-- Helper: scattering preserves the full length of the mask. -/
theorem scatterMask_length (old sub : List Bool) :
    (scatterMask old sub).length = old.length := by
  induction old generalizing sub with
  | nil => simp [scatterMask]
  | cons b rest ih =>
    cases b
    · simp only [scatterMask, List.length_cons, ih]
    · cases sub
      · simp only [scatterMask, List.length_cons, ih]
      · simp only [scatterMask, List.length_cons, ih]

/-- Helper: scattering can only clear positions — a position set in the
scattered mask was set in the old mask. -/
theorem scatterMask_le (old sub : List Bool) (i : Nat)
    (h : (scatterMask old sub).getD i false = true) : old.getD i false = true := by
  induction old generalizing sub i with
  | nil => simp [scatterMask] at h
  | cons b rest ih =>
    cases b
    · cases i with
      | zero => simp [scatterMask] at h
      | succ j =>
        simp only [scatterMask, List.getD_cons_succ] at h ⊢
        exact ih sub j h
    · cases sub with
      | nil =>
        cases i with
        | zero => simp [List.getD_cons_zero]
        | succ j =>
          simp only [scatterMask, List.getD_cons_succ] at h ⊢
          exact ih [] j h
      | cons s subRest =>
        cases i with
        | zero => simp [List.getD_cons_zero]
        | succ j =>
          simp only [scatterMask, List.getD_cons_succ] at h ⊢
          exact ih subRest j h

/-- Helper: scattering never increases the number of retained positions. -/
theorem scatterMask_countTrue_le (old sub : List Bool) :
    countTrue (scatterMask old sub) ≤ countTrue old := by
  induction old generalizing sub with
  | nil => simp [scatterMask, countTrue]
  | cons b rest ih =>
    cases b
    · rw [show scatterMask (false :: rest) sub = false :: scatterMask rest sub from rfl,
        countTrue_cons_false, countTrue_cons_false]
      exact ih sub
    · cases sub with
      | nil =>
        rw [show scatterMask (true :: rest) [] = false :: scatterMask rest [] from rfl,
          countTrue_cons_false, countTrue_cons_true]
        exact Nat.le_succ_of_le (ih [])
      | cons s subRest =>
        rw [show scatterMask (true :: rest) (s :: subRest) = s :: scatterMask rest subRest
          from rfl, countTrue_cons_true]
        cases s
        · rw [countTrue_cons_false]
          exact Nat.le_succ_of_le (ih subRest)
        · rw [countTrue_cons_true]
          exact Nat.succ_le_succ (ih subRest)

/-- Helper: selecting with a set head keeps the element. -/
theorem selectMask_cons_true {α : Type} (x : α) (xs : List α) (ms : List Bool) :
    selectMask (x :: xs) (true :: ms) = x :: selectMask xs ms := by
  simp [selectMask]

/-- Helper: selecting with a cleared head drops the element. -/
theorem selectMask_cons_false {α : Type} (x : α) (xs : List α) (ms : List Bool) :
    selectMask (x :: xs) (false :: ms) = selectMask xs ms := by
  simp [selectMask]

/-- Helper: selecting by a mask yields exactly `countTrue` entries. -/
theorem selectMask_length {α : Type} (l : List α) (m : List Bool)
    (h : l.length = m.length) : (selectMask l m).length = countTrue m := by
  induction l generalizing m with
  | nil =>
    cases m with
    | nil => simp [selectMask, countTrue]
    | cons b mrest => simp at h
  | cons x xs ih =>
    cases m with
    | nil => simp at h
    | cons b mrest =>
      simp only [List.length_cons] at h
      cases b
      · rw [selectMask_cons_false, countTrue_cons_false]
        exact ih mrest (by omega)
      · rw [selectMask_cons_true, countTrue_cons_true, List.length_cons,
          ih mrest (by omega)]

/-- C9: the commit helpers keep the masks at their original length and only
ever clear positions.  Concretely: `scatterMask` preserves length, is
pointwise dominated by the previous mask and never increases the retained
count; the active view built from a mask has exactly `countTrue` columns; and
any successful `filter_missing` (resp. `filter_missing_sample`) call yields a
state whose loci (resp. sample) mask has unchanged length, is a subset of the
previous mask with non-increasing retained count, while the other mask is
untouched. -/
theorem c9_mask_invariants :
    (∀ old sub : List Bool, (scatterMask old sub).length = old.length) ∧
    (∀ old sub : List Bool, ∀ i : Nat,
      (scatterMask old sub).getD i false = true → old.getD i false = true) ∧
    (∀ old sub : List Bool, countTrue (scatterMask old sub) ≤ countTrue old) ∧
    (∀ (row : List Sym) (m : List Bool), row.length = m.length →
      (selectMask row m).length = countTrue m) ∧
    (∀ (st : ChainState) (t : ℚ) (stNew : ChainState),
      fmFilterMissing st t = Except.ok stNew →
        stNew.loci.length = st.loci.length ∧
        countTrue stNew.loci ≤ countTrue st.loci ∧
        (∀ i : Nat, stNew.loci.getD i false = true → st.loci.getD i false = true) ∧
        stNew.samps = st.samps) ∧
    (∀ (st : ChainState) (t : ℚ) (stNew : ChainState),
      fmFilterMissingSample st t = Except.ok stNew →
        stNew.samps.length = st.samps.length ∧
        countTrue stNew.samps ≤ countTrue st.samps ∧
        (∀ i : Nat, stNew.samps.getD i false = true → st.samps.getD i false = true) ∧
        stNew.loci = st.loci) := by
  refine ⟨scatterMask_length, scatterMask_le, scatterMask_countTrue_le,
    fun row m h => selectMask_length row m h, ?_, ?_⟩
  · intro st t stNew h
    unfold fmFilterMissing at h
    by_cases hr : t < 0 ∨ 1 < t
    · rw [if_pos hr] at h
      exact absurd h (by simp)
    · rw [if_neg hr] at h
      by_cases he : countTrue (scatterMask st.loci (fmMissingMask st t)) = 0
      · rw [if_pos he] at h
        cases h
        exact ⟨rfl, Nat.le_refl _, fun i hi => hi, rfl⟩
      · rw [if_neg he] at h
        cases h
        unfold updateLociIndices
        exact ⟨scatterMask_length _ _, scatterMask_countTrue_le _ _,
          fun i hi => scatterMask_le _ _ i hi, rfl⟩
  · intro st t stNew h
    unfold fmFilterMissingSample at h
    by_cases h0 : countTrue st.loci = 0
    · rw [if_pos h0] at h
      cases h
      exact ⟨rfl, Nat.le_refl _, fun i hi => hi, rfl⟩
    · rw [if_neg h0] at h
      by_cases h1 : countTrue st.samps = 0 ∨ countTrue st.loci = 0
      · rw [if_pos h1] at h
        cases h
        exact ⟨rfl, Nat.le_refl _, fun i hi => hi, rfl⟩
      · rw [if_neg h1] at h
        by_cases he : countTrue (scatterMask st.samps (fmSampleMissingMask st t)) = 0
        · rw [if_pos he] at h
          cases h
          exact ⟨rfl, Nat.le_refl _, fun i hi => hi, rfl⟩
        · rw [if_neg he] at h
          cases h
          unfold updateSampleIndices
          exact ⟨scatterMask_length _ _, scatterMask_countTrue_le _ _,
            fun i hi => scatterMask_le _ _ i hi, rfl⟩

/-- C9 witness: the invariants applied at a concrete successful
`filter_missing` call and at a concrete active view, discharging the
hypotheses. -/
theorem c9_witness :
    ((updateLociIndices c9St [true] filterMissingName (some 1)).loci.length =
        c9St.loci.length ∧
      countTrue (updateLociIndices c9St [true] filterMissingName (some 1)).loci ≤
        countTrue c9St.loci) ∧
    (selectMask [symA, symC] [true, false]).length = countTrue [true, false] := by
  have hmask : fmMissingMask c9St 1 = [true] := by
    have hcnt : missingCountsPerCol c9St = [0] := by decide
    have hsamps : countTrue c9St.samps = 1 := by decide
    unfold fmMissingMask
    rw [hcnt, hsamps, List.map_cons, List.map_nil,
      decide_eq_true (by norm_num : ((0 : Nat) : ℚ) / ((1 : Nat) : ℚ) ≤ 1)]
  have hrun : fmFilterMissing c9St 1 =
      Except.ok (updateLociIndices c9St [true] filterMissingName (some 1)) := by
    unfold fmFilterMissing
    rw [if_neg (by norm_num)]
    rw [show scatterMask c9St.loci (fmMissingMask c9St 1) = [true] by rw [hmask]; decide]
    rfl
  have hinv := c9_mask_invariants.2.2.2.2.1 c9St 1
    (updateLociIndices c9St [true] filterMissingName (some 1)) hrun
  exact ⟨⟨hinv.1, hinv.2.1⟩,
    c9_mask_invariants.2.2.2.1 [symA, symC] [true, false] (by decide)⟩

/-- C3 counterexample: a single locus on chromosome "1" at position 50 with
window 100.  The claim keeps the first locus of every chromosome, but the
code's scan starts from a last kept position of −1 and computes
`50 − (−1) = 51 ≤ 100`, dropping the only locus. -/
theorem c3_counterexample :
    nrThinLoci ["1"] [50] 100 = [false] ∧ claimThinKeep ["1"] [50] 100 = [true] := by
  constructor <;> decide

/-- Helper: the imperative scan equals applying its collected drop list. -/
theorem nrThinScan_eq_applyDrops (w : Int) (pairs : List (Nat × Nat))
    (keep : List Bool) (last : Int) :
    nrThinScan w keep last pairs = applyDrops keep (greedyDrops w last pairs) := by
  induction pairs generalizing keep last with
  | nil => rfl
  | cons pi rest ih =>
    simp only [nrThinScan, greedyDrops]
    by_cases h : (pi.1 : Int) - last ≤ w
    · rw [if_pos h, if_pos h, ih]
      rfl
    · rw [if_neg h, if_neg h, ih]

/-- Helper: applying two drop lists in sequence applies their concatenation. -/
theorem applyDrops_append (keep : List Bool) (d1 d2 : List Nat) :
    applyDrops (applyDrops keep d1) d2 = applyDrops keep (d1 ++ d2) := by
  unfold applyDrops
  exact (List.foldl_append ..).symm

/-- Helper: applying drops preserves the mask length. -/
theorem applyDrops_length (drops : List Nat) (keep : List Bool) :
    (applyDrops keep drops).length = keep.length := by
  induction drops generalizing keep with
  | nil => rfl
  | cons j rest ih =>
    rw [show applyDrops keep (j :: rest) = applyDrops (keep.set j false) rest from rfl,
      ih, List.length_set]

/-- Helper: entry of a set-to-false write at its own index. -/
theorem getD_set_self (l : List Bool) (j : Nat) : (l.set j false).getD j false = false := by
  simp only [List.getD, List.get?_eq_getElem?]
  rw [List.getElem?_set_self']
  cases l[j]? <;> rfl

/-- Helper: entry of a set-to-false write at another index. -/
theorem getD_set_ne (l : List Bool) (i j : Nat) (h : ¬ i = j) :
    (l.set j false).getD i false = l.getD i false := by
  simp only [List.getD, List.get?_eq_getElem?]
  rw [List.getElem?_set_ne (by omega : j ≠ i)]

/-- Helper: a mask entry after applying drops is the old entry with membership
in the drop list cleared. -/
theorem applyDrops_getD (drops : List Nat) (keep : List Bool) (i : Nat) :
    (applyDrops keep drops).getD i false = (keep.getD i false && !(drops.contains i)) := by
  induction drops generalizing keep with
  | nil => simp [applyDrops]
  | cons j rest ih =>
    rw [show applyDrops keep (j :: rest) = applyDrops (keep.set j false) rest from rfl, ih]
    by_cases hij : i = j
    · subst hij
      rw [getD_set_self]
      simp
    · rw [getD_set_ne _ _ _ hij]
      simp only [List.contains_cons]
      have : (i == j) = false := by simp [hij]
      rw [this]
      simp

/-- Helper: membership through the stable string-keyed insertion. -/
theorem mem_insertPosIdxStr (p x : Nat × Nat) (l : List (Nat × Nat)) :
    x ∈ insertPosIdxStr p l ↔ x = p ∨ x ∈ l := by
  induction l with
  | nil => simp [insertPosIdxStr]
  | cons q qs ih =>
    simp only [insertPosIdxStr]
    by_cases h : !charListLt (Nat.repr q.1).data (Nat.repr p.1).data
    · rw [if_pos h]
      simp [List.mem_cons]
    · rw [if_neg h]
      simp only [List.mem_cons, ih]
      tauto

/-- Helper: the string-keyed sort permutes its input. -/
theorem mem_sortPosIdxStr (x : Nat × Nat) (l : List (Nat × Nat)) :
    x ∈ sortPosIdxStr l ↔ x ∈ l := by
  induction l with
  | nil => simp [sortPosIdxStr]
  | cons p ps ih =>
    show x ∈ insertPosIdxStr p (sortPosIdxStr ps) ↔ _
    rw [mem_insertPosIdxStr, ih]
    simp [List.mem_cons]

/-- Helper: every dropped index comes from some pair of the scanned list. -/
theorem mem_greedyDrops (w : Int) (pairs : List (Nat × Nat)) (last : Int) (i : Nat)
    (h : i ∈ greedyDrops w last pairs) : ∃ p, (p, i) ∈ pairs := by
  induction pairs generalizing last with
  | nil => simp [greedyDrops] at h
  | cons pi rest ih =>
    simp only [greedyDrops] at h
    by_cases hc : (pi.1 : Int) - last ≤ w
    · rw [if_pos hc] at h
      rcases List.mem_cons.mp h with h1 | h2
      · subst h1
        exact ⟨pi.1, by simp⟩
      · rcases ih _ h2 with ⟨p, hp⟩
        exact ⟨p, List.mem_cons_of_mem _ hp⟩
    · rw [if_neg hc] at h
      rcases ih _ h with ⟨p, hp⟩
      exact ⟨p, List.mem_cons_of_mem _ hp⟩

/-- Helper: a pair produced for a chromosome carries an in-range index whose
chromosome name is that chromosome. -/
theorem chromPairs_mem (chroms : List String) (pos : List Nat) (c : String)
    (p i : Nat) (h : (p, i) ∈ chromPairs chroms pos c) :
    chroms.getD i (String.mk []) = c ∧ i < pos.length := by
  unfold chromPairs at h
  rcases List.mem_filterMap.mp h with ⟨j, hj, hcond⟩
  by_cases hc : chroms.getD j (String.mk []) = c
  · rw [if_pos hc] at hcond
    rcases Option.some.injEq .. ▸ hcond with heq
    have hji : j = i := congrArg Prod.snd (Option.some.inj hcond)
    subst hji
    exact ⟨hc, List.mem_range.mp hj⟩
  · rw [if_neg hc] at hcond
    exact absurd hcond (by simp)

/-- Helper: the index belonging to a chromosome is listed among its pairs. -/
theorem chromPairs_self_mem (chroms : List String) (pos : List Nat) (i : Nat)
    (hi : i < pos.length) :
    (pos.getD i 0, i) ∈ chromPairs chroms pos (chroms.getD i (String.mk [])) := by
  unfold chromPairs
  exact List.mem_filterMap.mpr ⟨i, List.mem_range.mpr hi, by rw [if_pos rfl]⟩

/-- Helper: first-occurrence deduplication preserves membership. -/
theorem mem_dedupFirst (x : String) (l : List String) : x ∈ dedupFirst l ↔ x ∈ l := by
  unfold dedupFirst
  have hgen : ∀ (ys : List String) (acc : List String),
      x ∈ ys.foldl (fun acc c => if acc.contains c then acc else acc ++ [c]) acc ↔
        x ∈ acc ∨ x ∈ ys := by
    intro ys
    induction ys with
    | nil => intro acc; simp
    | cons c cs ih =>
      intro acc
      rw [List.foldl_cons, ih]
      by_cases hc : acc.contains c
      · rw [if_pos hc]
        have hcm : c ∈ acc := by
          have := hc
          simpa [List.elem_eq_mem] using this
        constructor
        · intro h
          rcases h with h | h
          · exact Or.inl h
          · exact Or.inr (List.mem_cons_of_mem _ h)
        · intro h
          rcases h with h | h
          · exact Or.inl h
          · rcases List.mem_cons.mp h with h1 | h2
            · exact Or.inl (h1 ▸ hcm)
            · exact Or.inr h2
      · rw [if_neg hc]
        simp only [List.mem_append, List.mem_singleton, List.mem_cons]
        tauto
  rw [hgen]
  simp

/-- Helper: the chromosome-by-chromosome fold of the scan applies the
concatenation of all per-chromosome drop lists. -/
theorem foldl_scan_flatMap (w : Int) (chroms : List String) (pos : List Nat)
    (cs : List String) (keep : List Bool) :
    cs.foldl (fun k c => nrThinScan w k (-1) (sortPosIdxStr (chromPairs chroms pos c))) keep =
      applyDrops keep
        (cs.flatMap (fun c => greedyDrops w (-1) (sortPosIdxStr (chromPairs chroms pos c)))) := by
  induction cs generalizing keep with
  | nil => rfl
  | cons c cl ih =>
    simp only [List.foldl_cons, List.flatMap_cons]
    rw [nrThinScan_eq_applyDrops, ih, applyDrops_append]

/-- C3 (amended): `NRemover2.thin_loci` does process each chromosome
independently, but it orders that chromosome's loci by the decimal-string
representation of their positions (numpy argsorts `pos.astype(str)`), and its
scan starts from a last kept position of −1, so the first locus in sort order
is itself dropped whenever its position is at most `window − 1`; a locus is
kept iff the scan of its own chromosome does not drop it.  The claim's example
still holds: positions 100, 150, 500 on one chromosome with window 100 keep
100 and 500 and drop 150. -/
theorem c3_thinning_semantics :
    (∀ (chroms : List String) (pos : List Nat) (w : Int),
      chroms.length = pos.length →
        nrThinLoci chroms pos w = amendedThinKeep chroms pos w) ∧
    nrThinLoci ["1", "1", "1"] [100, 150, 500] 100 = [true, false, true] := by
  refine ⟨?_, by decide⟩
  intro chroms pos w hlen
  have hfold : nrThinLoci chroms pos w =
      applyDrops (List.replicate pos.length true)
        ((dedupFirst chroms).flatMap
          (fun c => greedyDrops w (-1) (sortPosIdxStr (chromPairs chroms pos c)))) := by
    unfold nrThinLoci
    exact foldl_scan_flatMap w chroms pos (dedupFirst chroms) _
  have hlenL : (nrThinLoci chroms pos w).length = pos.length := by
    rw [hfold, applyDrops_length, List.length_replicate]
  have hlenR : (amendedThinKeep chroms pos w).length = pos.length := by
    unfold amendedThinKeep
    rw [List.length_map, List.length_range]
  apply List.ext_getElem (by rw [hlenL, hlenR])
  intro i h1 h2
  have hip : i < pos.length := by rw [hlenL] at h1; exact h1
  have hRHS : (amendedThinKeep chroms pos w)[i] =
      !(greedyDrops w (-1)
          (sortPosIdxStr (chromPairs chroms pos (chroms.getD i (String.mk []))))).contains i := by
    unfold amendedThinKeep
    simp [List.getElem_map, List.getElem_range, hip]
  have hLHS : (nrThinLoci chroms pos w)[i] =
      (true && !((dedupFirst chroms).flatMap
        (fun c => greedyDrops w (-1) (sortPosIdxStr (chromPairs chroms pos c)))).contains i) := by
    rw [← List.getD_eq_getElem _ false h1, hfold, applyDrops_getD]
    have : (List.replicate pos.length true).getD i false = true := by
      simp [List.getD, List.getElem?_replicate, hip]
    rw [this]
  rw [hLHS, hRHS, Bool.true_and]
  have hmemiff :
      (i ∈ (dedupFirst chroms).flatMap
        (fun c => greedyDrops w (-1) (sortPosIdxStr (chromPairs chroms pos c)))) ↔
      (i ∈ greedyDrops w (-1)
        (sortPosIdxStr (chromPairs chroms pos (chroms.getD i (String.mk []))))) := by
    constructor
    · intro h
      rcases List.mem_flatMap.mp h with ⟨c, _, hdrop⟩
      rcases mem_greedyDrops _ _ _ _ hdrop with ⟨p, hp⟩
      have hp2 := (mem_sortPosIdxStr _ _).mp hp
      have hself := (chromPairs_mem _ _ _ _ _ hp2).1
      rw [hself]
      exact hdrop
    · intro h
      apply List.mem_flatMap.mpr
      refine ⟨chroms.getD i (String.mk []), ?_, h⟩
      rw [mem_dedupFirst]
      have hic : i < chroms.length := by omega
      rw [List.getD_eq_getElem _ _ hic]
      exact List.getElem_mem hic
  have : ((dedupFirst chroms).flatMap
      (fun c => greedyDrops w (-1) (sortPosIdxStr (chromPairs chroms pos c)))).contains i =
      (greedyDrops w (-1)
        (sortPosIdxStr (chromPairs chroms pos (chroms.getD i (String.mk []))))).contains i := by
    simp only [List.elem_eq_mem]
    exact decide_eq_decide.mpr hmemiff
  rw [this]

/-- C3 witness: the amended equivalence applied at the claim's example table,
with the length hypothesis discharged. -/
theorem c3_witness :
    nrThinLoci ["1", "1", "1"] [100, 150, 500] 100 =
      amendedThinKeep ["1", "1", "1"] [100, 150, 500] 100 :=
  c3_thinning_semantics.1 ["1", "1", "1"] [100, 150, 500] 100 (by decide)

end SNPio
